import Mathlib

/-!
Verification of the reloading cache (package `cache`, file `cache.go`).

The Go code is shallowly embedded as follows.

Maps. A Go `map[string]T` is an association list `GoMap T` with unique keys
(representation invariant `NoDupKeys`); lookup, insert-or-overwrite and delete
mirror Go map semantics.

The cache. `Cache T` carries the fields of the Go struct `Cache[T]`:
* `loader` : the user supplied loader. In Go it is an effectful
  `func() (map[string]T, error)`; we model it as an oracle indexed by the
  invocation count (`calls`), so each invocation may give a different outcome.
* `interval` : the reload interval (Go `time.Duration`, an integer).
* `data` : the current mapping.
* `tickerActive` : whether `c.ticker != nil`.
* `quitClosed` : whether the channel `c.quit` has been closed.
* `tasks` : the number of live background goroutines that will still react to
  ticker ticks (a goroutine that has been signalled through `quit`, or that is
  spawned while `quit` is already closed, exits without processing any tick and
  counts zero).
* `autoLoads` : how many loads were triggered by the background ticker.

Mutex discipline. Every Go method takes `c.mu` (read or write) around its whole
body, so each operation is one atomic step; operations are plain state
transformers and concurrent executions are interleavings of these atomic steps
(the trace model `Act` below).

Panics. Go `close` on an already-closed channel panics; `StopAutoReload` is
therefore embedded in `Except GoPanic`.
-/

/-- A Go map value of type `map[string]T`: an association list. -/
abbrev GoMap (T : Type) := List (String × T)

/-- Representation invariant of a Go map: keys are pairwise distinct. -/
def NoDupKeys {T : Type} (m : GoMap T) : Prop :=
  (m.map Prod.fst).Nodup

instance {T : Type} (m : GoMap T) : Decidable (NoDupKeys m) := by
  unfold NoDupKeys; infer_instance

/-- Go map read `v, ok := m[k]`: the value bound to `k`, if any. -/
def mapGet {T : Type} (m : GoMap T) (k : String) : Option T :=
  match m with
  | [] => none
  | (k', v) :: rest => if k' = k then some v else mapGet rest k

/-- Go map write `m[k] = v`: overwrite the binding of `k`, or append it. -/
def mapInsert {T : Type} (m : GoMap T) (k : String) (v : T) : GoMap T :=
  match m with
  | [] => [(k, v)]
  | (k', v') :: rest =>
      if k' = k then (k, v) :: rest else (k', v') :: mapInsert rest k v

/-- Go `delete(m, k)`: remove the binding of `k`, a no-op when absent. -/
def mapErase {T : Type} (m : GoMap T) (k : String) : GoMap T :=
  match m with
  | [] => []
  | (k', v') :: rest =>
      if k' = k then mapErase rest k else (k', v') :: mapErase rest k

/-- Outcome of one invocation of the Go loader `func() (map[string]T, error)`. -/
inductive LoadResult (T : Type) where
  | ok (m : GoMap T)
  | err (e : String)
deriving DecidableEq

/-- A Go runtime panic relevant to this code base. -/
inductive GoPanic where
  | closeOfClosedChannel
deriving DecidableEq

/-- Embedding of the struct `Cache[T]` of `cache.go` (see the module comment
for the reading of each field). -/
structure Cache (T : Type) where
  loader : Nat → LoadResult T
  interval : Int
  data : GoMap T
  tickerActive : Bool
  quitClosed : Bool
  calls : Nat
  tasks : Nat
  autoLoads : Nat

/-- Embedding of `NewCache(loader, interval)`: empty map, fresh open `quit`
channel, nil ticker, and the loader has never been invoked. -/
def NewCache {T : Type} (loader : Nat → LoadResult T) (interval : Int) :
    Cache T :=
  { loader := loader
    interval := interval
    data := []
    tickerActive := false
    quitClosed := false
    calls := 0
    tasks := 0
    autoLoads := 0 }

/-- Embedding of `Load()`: invoke the loader once; on error only log and
return (the Go method has no error result, so nothing is propagated); on
success swap the whole map in under the write lock. -/
def Cache.Load {T : Type} (c : Cache T) : Cache T :=
  match c.loader c.calls with
  | LoadResult.err _ => { c with calls := c.calls + 1 }
  | LoadResult.ok m => { c with calls := c.calls + 1, data := m }

/-- Embedding of `Reload()`: an alias for `Load()`. -/
def Cache.Reload {T : Type} (c : Cache T) : Cache T :=
  c.Load

/-- Embedding of `Add(key, value)`. -/
def Cache.Add {T : Type} (c : Cache T) (key : String) (value : T) : Cache T :=
  { c with data := mapInsert c.data key value }

/-- Embedding of `Delete(key)`. -/
def Cache.Delete {T : Type} (c : Cache T) (key : String) : Cache T :=
  { c with data := mapErase c.data key }

/-- Embedding of `Clear()`. -/
def Cache.Clear {T : Type} (c : Cache T) : Cache T :=
  { c with data := [] }

/-- Embedding of `Get(key)`: Go returns `(val, ok)`, embedded as an `Option`. -/
def Cache.Get {T : Type} (c : Cache T) (key : String) : Option T :=
  mapGet c.data key

/-- Embedding of the copy loop of `GetAll()`: `result := make(map[string]T)`
followed by `for k, v := range c.data { result[k] = v }`. -/
def copyAll {T : Type} (m : GoMap T) : GoMap T :=
  m.foldl (fun acc kv => mapInsert acc kv.1 kv.2) []

/-- Embedding of `GetAll()`: a fresh shallow copy of the whole map. -/
def Cache.GetAll {T : Type} (c : Cache T) : GoMap T :=
  copyAll c.data

/-- Embedding of `Find(predicate)`: the values satisfying the predicate, in
iteration order. -/
def Cache.Find {T : Type} (c : Cache T) (predicate : T → Bool) : List T :=
  (c.data.filter (fun kv => predicate kv.2)).map Prod.snd

/-- Embedding of `FindOne(predicate)`: the first value satisfying the
predicate, if any; Go returns `(zero, false)` when none does, embedded as
`none`. -/
def Cache.FindOne {T : Type} (c : Cache T) (predicate : T → Bool) : Option T :=
  (c.data.find? (fun kv => predicate kv.2)).map Prod.snd

/-- Embedding of `StartAutoReload()`: a no-op when the ticker already exists;
otherwise create the ticker and spawn the goroutine. A goroutine spawned while
`quit` is already closed immediately takes the `<-c.quit` branch of its
`select`, stops the ticker and returns, so it never processes a tick and
contributes no live task. -/
def Cache.StartAutoReload {T : Type} (c : Cache T) : Cache T :=
  if c.tickerActive then c
  else
    { c with
      tickerActive := true
      tasks := if c.quitClosed then c.tasks else c.tasks + 1 }

/-- Embedding of `StopAutoReload()`: stop and nil out the ticker when present,
then `close(c.quit)` unconditionally. Go panics when closing a channel that is
already closed, hence the `Except`. On success the goroutine is signalled and
exits, so no live task remains. -/
def Cache.StopAutoReload {T : Type} (c : Cache T) : Except GoPanic (Cache T) :=
  let c' := if c.tickerActive then { c with tickerActive := false } else c
  if c'.quitClosed then Except.error GoPanic.closeOfClosedChannel
  else Except.ok { c' with quitClosed := true, tasks := 0 }

/-- Embedding of `SetInterval(interval)`: store the new interval and replace
the ticker when running (the goroutine keeps running either way). -/
def Cache.SetInterval {T : Type} (c : Cache T) (interval : Int) : Cache T :=
  { c with interval := interval }

/-- Embedding of one ticker tick: when a live background goroutine exists its
`select` takes the `<-c.ticker.C` branch and calls `c.Load()`; with no live
goroutine the tick is dropped and nothing happens. -/
def Cache.tick {T : Type} (c : Cache T) : Cache T :=
  if c.tasks = 0 then c
  else
    let c' := c.Load
    { c' with autoLoads := c'.autoLoads + 1 }

/-- One externally observable atomic operation on a cache (each Go method body
runs under the mutex, so it is one step). -/
inductive LifeOp (T : Type) where
  | start
  | stop
  | tick
  | load
  | add (k : String) (v : T)
  | del (k : String)
  | clear
  | setInterval (d : Int)

/-- Small-step semantics: apply one operation, propagating a panic. -/
def stepOp {T : Type} (c : Cache T) : LifeOp T → Except GoPanic (Cache T)
  | LifeOp.start => Except.ok c.StartAutoReload
  | LifeOp.stop => c.StopAutoReload
  | LifeOp.tick => Except.ok c.tick
  | LifeOp.load => Except.ok c.Load
  | LifeOp.add k v => Except.ok (c.Add k v)
  | LifeOp.del k => Except.ok (c.Delete k)
  | LifeOp.clear => Except.ok c.Clear
  | LifeOp.setInterval d => Except.ok (c.SetInterval d)

/-- Run a sequence of operations; a panic aborts the run. -/
def runOps {T : Type} (c : Cache T) : List (LifeOp T) → Except GoPanic (Cache T)
  | [] => Except.ok c
  | op :: ops =>
      match stepOp c op with
      | Except.error e => Except.error e
      | Except.ok c' => runOps c' ops

/-! Basic lemmas about the Go map operations. -/

theorem nodupKeys_cons {T : Type} (k0 : String) (v0 : T) (rest : GoMap T) :
    NoDupKeys ((k0, v0) :: rest) ↔
      k0 ∉ rest.map Prod.fst ∧ NoDupKeys rest := by
  simp [NoDupKeys, List.nodup_cons]

theorem mapGet_mapInsert {T : Type} (m : GoMap T) (k k' : String) (v : T) :
    mapGet (mapInsert m k v) k' = if k = k' then some v else mapGet m k' := by
  induction m with
  | nil =>
      by_cases h : k = k' <;> simp [mapInsert, mapGet, h]
  | cons kv rest ih =>
      obtain ⟨k0, v0⟩ := kv
      by_cases h0 : k0 = k
      · subst h0
        by_cases h1 : k0 = k' <;> simp [mapInsert, mapGet, h1]
      · by_cases h1 : k0 = k'
        · subst h1
          have h2 : k ≠ k0 := fun h => h0 h.symm
          simp [mapInsert, mapGet, h0, h2]
        · simp [mapInsert, mapGet, h0, h1, ih]

theorem mapGet_eq_none_iff {T : Type} (m : GoMap T) (k : String) :
    mapGet m k = none ↔ k ∉ m.map Prod.fst := by
  induction m with
  | nil => simp [mapGet]
  | cons kv rest ih =>
      obtain ⟨k0, v0⟩ := kv
      by_cases h0 : k0 = k
      · subst h0
        simp [mapGet]
      · rw [List.map_cons]
        simp only [mapGet, if_neg h0]
        rw [ih]
        constructor
        · intro hn hmem
          rcases List.mem_cons.mp hmem with heq | hmem'
          · exact h0 heq.symm
          · exact hn hmem'
        · intro hn hmem'
          exact hn (List.mem_cons_of_mem _ hmem')

theorem mapErase_eq_self_of_absent {T : Type} (m : GoMap T) (k : String)
    (h : mapGet m k = none) : mapErase m k = m := by
  induction m with
  | nil => rfl
  | cons kv rest ih =>
      obtain ⟨k0, v0⟩ := kv
      by_cases h0 : k0 = k
      · simp [mapGet, h0] at h
      · simp [mapGet, h0] at h
        simp [mapErase, h0, ih h]

theorem mapGet_mapErase_self {T : Type} (m : GoMap T) (k : String) :
    mapGet (mapErase m k) k = none := by
  induction m with
  | nil => rfl
  | cons kv rest ih =>
      obtain ⟨k0, v0⟩ := kv
      by_cases h0 : k0 = k <;> simp [mapErase, mapGet, h0, ih]

theorem mem_of_mapGet_eq_some {T : Type} (m : GoMap T) (k : String) (v : T)
    (h : mapGet m k = some v) : (k, v) ∈ m := by
  induction m with
  | nil => simp [mapGet] at h
  | cons kv rest ih =>
      obtain ⟨k0, v0⟩ := kv
      by_cases h0 : k0 = k
      · subst h0
        simp [mapGet] at h
        simp [h]
      · simp [mapGet, h0] at h
        simp [ih h]

theorem mapGet_eq_some_of_mem {T : Type} (m : GoMap T) (k : String) (v : T)
    (hnd : NoDupKeys m) (h : (k, v) ∈ m) : mapGet m k = some v := by
  induction m with
  | nil => simp at h
  | cons kv rest ih =>
      obtain ⟨k0, v0⟩ := kv
      obtain ⟨hk0, hnd'⟩ := (nodupKeys_cons k0 v0 rest).mp hnd
      rcases List.mem_cons.mp h with heq | hrest
      · obtain ⟨rfl, rfl⟩ := Prod.mk.injEq .. ▸ heq
        simp [mapGet]
      · by_cases h0 : k0 = k
        · subst h0
          exact absurd (List.mem_map_of_mem Prod.fst hrest) hk0
        · simp [mapGet, h0, ih hnd' hrest]

theorem mapGet_foldl_insert {T : Type} (l : GoMap T) (k : String)
    (hnd : NoDupKeys l) :
    ∀ acc : GoMap T,
      mapGet (l.foldl (fun a kv => mapInsert a kv.1 kv.2) acc) k =
        match mapGet l k with
        | some v => some v
        | none => mapGet acc k := by
  induction l with
  | nil =>
      intro acc
      simp [mapGet]
  | cons kv rest ih =>
      obtain ⟨k0, v0⟩ := kv
      obtain ⟨hk0, hnd'⟩ := (nodupKeys_cons k0 v0 rest).mp hnd
      intro acc
      simp only [List.foldl]
      rw [ih hnd' (mapInsert acc k0 v0)]
      by_cases h0 : k0 = k
      · subst h0
        have hrest : mapGet rest k0 = none :=
          (mapGet_eq_none_iff rest k0).mpr hk0
        simp [mapGet, hrest, mapGet_mapInsert]
      · cases hrest : mapGet rest k <;>
          simp [mapGet, h0, hrest, mapGet_mapInsert]

theorem mapGet_copyAll {T : Type} (m : GoMap T) (hnd : NoDupKeys m)
    (k : String) : mapGet (copyAll m) k = mapGet m k := by
  unfold copyAll
  rw [mapGet_foldl_insert m k hnd []]
  cases h : mapGet m k <;> simp [mapGet]

/-! Concrete caches used to witness the claim theorems. -/

/-- A concrete loader that always fails. -/
def errLoader : Nat → LoadResult Nat :=
  fun _ => LoadResult.err ("boom")

/-- A concrete loader that always returns the map `{a: 10}`. -/
def okLoader : Nat → LoadResult Nat :=
  fun _ => LoadResult.ok ([(("a"), 10)])

/-- A concrete cache holding `{a: 1, b: 2}` with a failing loader. -/
def cacheWitErr : Cache Nat :=
  { loader := errLoader
    interval := 5
    data := [(("a"), 1), (("b"), 2)]
    tickerActive := false
    quitClosed := false
    calls := 0
    tasks := 0
    autoLoads := 0 }

/-- A concrete cache holding `{a: 1, b: 2}` whose loader returns `{a: 10}`. -/
def cacheWitOk : Cache Nat :=
  { loader := okLoader
    interval := 5
    data := [(("a"), 1), (("b"), 2)]
    tickerActive := false
    quitClosed := false
    calls := 0
    tasks := 0
    autoLoads := 0 }

/-- C7: `NewCache(loader, interval)` yields a cache with an empty data map,
the given loader and interval stored, no ticker and no background task, and a
loader invocation count of zero (the loader is never invoked). -/
theorem newCache_spec {T : Type} (loader : Nat → LoadResult T)
    (interval : Int) :
    (NewCache loader interval).data = [] ∧
    (NewCache loader interval).loader = loader ∧
    (NewCache loader interval).interval = interval ∧
    (NewCache loader interval).tickerActive = false ∧
    (NewCache loader interval).tasks = 0 ∧
    (NewCache loader interval).calls = 0 :=
  ⟨rfl, rfl, rfl, rfl, rfl, rfl⟩

/-- C4: on every cache and key, `Add(k, v)` followed by `Get(k)` returns
`(v, true)` and `Delete(k)` followed by `Get(k)` returns `(zero, false)` —
whether or not `k` was present before; and `Delete(k)` on a cache where `k`
is absent leaves the whole cache unchanged (all cache operations are total,
so no error is signalled). -/
theorem add_delete_get_spec {T : Type} :
    (∀ (c : Cache T) (k : String) (v : T), (c.Add k v).Get k = some v) ∧
    (∀ (c : Cache T) (k : String), (c.Delete k).Get k = none) ∧
    (∀ (c : Cache T) (k : String), c.Get k = none → c.Delete k = c) := by
  refine ⟨?_, ?_, ?_⟩
  · intro c k v
    simp [Cache.Get, Cache.Add, mapGet_mapInsert]
  · intro c k
    simp [Cache.Get, Cache.Delete, mapGet_mapErase_self]
  · intro c k habs
    show { c with data := mapErase c.data k } = c
    rw [mapErase_eq_self_of_absent c.data k habs]

/-- C4 witness: instantiation at the concrete cache `{a: 1, b: 2}`. The Add
and Delete conjuncts are exercised at the PRESENT key `a` (overwrite and real
removal), the no-op conjunct at the absent key `c`. -/
theorem add_delete_get_spec_witness :
    (cacheWitErr.Add ("a") 3).Get ("a") = some 3 ∧
    (cacheWitErr.Delete ("a")).Get ("a") = none ∧
    cacheWitErr.Get ("c") = none ∧
    cacheWitErr.Delete ("c") = cacheWitErr :=
  ⟨(@add_delete_get_spec Nat).1 cacheWitErr ("a") 3,
    (@add_delete_get_spec Nat).2.1 cacheWitErr ("a"),
    by decide,
    (@add_delete_get_spec Nat).2.2 cacheWitErr ("c") (by decide)⟩

/-- C2: when the loader reports an error, `Load` leaves the data mapping
exactly as it was, so `GetAll` after the failed load equals `GetAll` before
it; `Load` returns an ordinary cache state (its Go counterpart has no error
result), so the error is never propagated to the caller. -/
theorem load_error_preserves_data {T : Type} (c : Cache T) (e : String)
    (h : c.loader c.calls = LoadResult.err e) :
    c.Load.data = c.data ∧ c.Load.GetAll = c.GetAll := by
  unfold Cache.Load
  rw [h]
  exact ⟨rfl, rfl⟩

/-- C2 witness: instantiation at the concrete cache `{a: 1, b: 2}` with the
always-failing loader. -/
theorem load_error_preserves_data_witness :
    cacheWitErr.loader cacheWitErr.calls = LoadResult.err ("boom") ∧
    (cacheWitErr.Load.data = cacheWitErr.data ∧
      cacheWitErr.Load.GetAll = cacheWitErr.GetAll) :=
  ⟨rfl, load_error_preserves_data cacheWitErr ("boom") rfl⟩

/-- C3: when the loader succeeds with mapping `m`, `Load` replaces the whole
data mapping with `m`, discarding every point mutation made since the
previous load; `GetAll` afterwards is a copy of exactly `m`. -/
theorem load_success_replaces_data {T : Type} (c : Cache T) (m : GoMap T)
    (h : c.loader c.calls = LoadResult.ok m) :
    c.Load.data = m ∧ c.Load.GetAll = copyAll m := by
  unfold Cache.Load
  rw [h]
  exact ⟨rfl, rfl⟩

/-- C3 witness: the end-to-end scenario of the spec: after `Add("c", 3)` on
`{a: 1, b: 2}`, a successful `Load` whose loader returns `{a: 10}` yields
exactly `{a: 10}`, with the manual addition `c` gone. -/
theorem load_success_replaces_data_witness :
    (cacheWitOk.Add ("c") 3).loader (cacheWitOk.Add ("c") 3).calls
        = LoadResult.ok ([(("a"), 10)]) ∧
    ((cacheWitOk.Add ("c") 3).Load.data = [(("a"), 10)] ∧
      (cacheWitOk.Add ("c") 3).Load.GetAll = copyAll ([(("a"), 10)])) ∧
    (cacheWitOk.Add ("c") 3).Load.Get ("c") = none :=
  ⟨rfl,
    load_success_replaces_data (cacheWitOk.Add ("c") 3) ([(("a"), 10)]) rfl,
    by decide⟩

/-- C1: the claim requires that a second `StopAutoReload` never panics, but
the code closes the `quit` channel unconditionally: after one successful
`StopAutoReload` on a fresh cache (which itself does not panic), the second
call closes the already-closed channel, which panics in Go. -/
theorem stopAutoReload_double_close_panics :
    ∃ c1 : Cache Nat,
      (NewCache errLoader 5).StopAutoReload = Except.ok c1 ∧
      c1.StopAutoReload = Except.error GoPanic.closeOfClosedChannel :=
  ⟨_, rfl, rfl⟩

/-!
Heap-level model for the aliasing behaviour of `GetAll()`.

Go maps are reference values: `c.data` is a pointer into the heap, and the
point of `GetAll()` is that it returns a FRESH map populated by the copy loop,
not the internal pointer. To make that observable we model the relevant
fragment of the heap explicitly: addresses are naturals, `mem` gives the map
value stored at each address, and `next` is the next fresh address (every
allocated address is below `next`).
-/

/-- A fragment of the Go heap holding map values. -/
structure GoHeap (T : Type) where
  mem : Nat → GoMap T
  next : Nat

/-- Overwrite the map value stored at address `a` (an in-place mutation of the
Go map that `a` points to). -/
def heapWrite {T : Type} (h : GoHeap T) (a : Nat) (m : GoMap T) : GoHeap T :=
  { h with mem := fun a' => if a' = a then m else h.mem a' }

/-- Heap-level embedding of `GetAll()`: under the read lock, allocate a fresh
map (`make`), run the copy loop (`copyAll`) over the map at the data address,
and hand the fresh address to the caller. -/
def getAllAlloc {T : Type} (h : GoHeap T) (dataAddr : Nat) : Nat × GoHeap T :=
  (h.next,
    { mem := (heapWrite h h.next (copyAll (h.mem dataAddr))).mem
      next := h.next + 1 })

/-- Heap-level embedding of `Add(k, v)`: mutate the map at the data address in
place. -/
def addAlloc {T : Type} (h : GoHeap T) (dataAddr : Nat) (k : String) (v : T) :
    GoHeap T :=
  heapWrite h dataAddr (mapInsert (h.mem dataAddr) k v)

/-- C5: `GetAll` returns a copy independent of internal state. The returned
address is distinct from the data address; any overwrite the caller performs
on the returned map leaves the internal map, and hence every later `Get`,
untouched; an `Add` performed on the cache after the call leaves the returned
copy untouched; and the copy has exactly the same lookups as the internal map
at the time of the call. -/
theorem getAll_copy_independence {T : Type} (h : GoHeap T) (dataAddr : Nat)
    (hlt : dataAddr < h.next) (hnd : NoDupKeys (h.mem dataAddr))
    (m' : GoMap T) (k : String) (v : T) (k' : String) :
    (getAllAlloc h dataAddr).1 ≠ dataAddr ∧
    (heapWrite (getAllAlloc h dataAddr).2 (getAllAlloc h dataAddr).1 m').mem
        dataAddr = h.mem dataAddr ∧
    mapGet ((heapWrite (getAllAlloc h dataAddr).2 (getAllAlloc h dataAddr).1
        m').mem dataAddr) k' = mapGet (h.mem dataAddr) k' ∧
    (addAlloc (getAllAlloc h dataAddr).2 dataAddr k v).mem
        (getAllAlloc h dataAddr).1
      = (getAllAlloc h dataAddr).2.mem (getAllAlloc h dataAddr).1 ∧
    mapGet ((getAllAlloc h dataAddr).2.mem (getAllAlloc h dataAddr).1) k'
      = mapGet (h.mem dataAddr) k' := by
  have hne : dataAddr ≠ h.next := Nat.ne_of_lt hlt
  have hne' : h.next ≠ dataAddr := fun hc => hne hc.symm
  have hmem : (heapWrite (getAllAlloc h dataAddr).2 (getAllAlloc h dataAddr).1
      m').mem dataAddr = h.mem dataAddr := by
    simp [getAllAlloc, heapWrite, hne]
  refine ⟨hne', hmem, ?_, ?_, ?_⟩
  · rw [hmem]
  · simp [getAllAlloc, addAlloc, heapWrite, hne, hne']
  · simp [getAllAlloc, heapWrite, mapGet_copyAll (h.mem dataAddr) hnd]

/-- A concrete one-address heap holding the map `{a: 1}` at address `0`. -/
def heapWit : GoHeap Nat :=
  { mem := fun a => if a = 0 then [(("a"), 1)] else []
    next := 1 }

/-- C5 witness: instantiation at the concrete heap `heapWit`, the caller
overwrite `{b: 7}`, the cache mutation `Add("c", 3)` and the probe key `a`. -/
theorem getAll_copy_independence_witness :
    (0 : Nat) < heapWit.next ∧ NoDupKeys (heapWit.mem 0) ∧
    ((getAllAlloc heapWit 0).1 ≠ 0 ∧
      (heapWrite (getAllAlloc heapWit 0).2 (getAllAlloc heapWit 0).1
          ([(("b"), 7)])).mem 0 = heapWit.mem 0 ∧
      mapGet ((heapWrite (getAllAlloc heapWit 0).2 (getAllAlloc heapWit 0).1
          ([(("b"), 7)])).mem 0) ("a") = mapGet (heapWit.mem 0) ("a") ∧
      (addAlloc (getAllAlloc heapWit 0).2 0 ("c") 3).mem
          (getAllAlloc heapWit 0).1
        = (getAllAlloc heapWit 0).2.mem (getAllAlloc heapWit 0).1 ∧
      mapGet ((getAllAlloc heapWit 0).2.mem (getAllAlloc heapWit 0).1) ("a")
        = mapGet (heapWit.mem 0) ("a")) :=
  ⟨by decide, by decide,
    getAll_copy_independence heapWit 0 (by decide) (by decide)
      ([(("b"), 7)]) ("c") 3 ("a")⟩

/-- A concrete Boolean predicate used by the C6 witness. -/
def gtOne : Nat → Bool :=
  fun v => decide (1 < v)

/-- C6: `Find(p)` returns exactly the stored values satisfying `p` (an empty
list, not an error, when none match), and `FindOne(p)` returns some stored
matching value when one exists and `none` (the `(zero, false)` return) when
none does. -/
theorem find_findOne_spec {T : Type} (c : Cache T) (p : T → Bool) (v : T)
    (hnd : NoDupKeys c.data) :
    (v ∈ c.Find p ↔ ∃ k, c.Get k = some v ∧ p v = true) ∧
    ((∃ k w, c.Get k = some w ∧ p w = true) →
      ∃ w, c.FindOne p = some w ∧ p w = true ∧ ∃ k, c.Get k = some w) ∧
    ((∀ k w, c.Get k = some w → p w = false) →
      c.FindOne p = none ∧ c.Find p = []) := by
  refine ⟨?_, ?_, ?_⟩
  · constructor
    · intro hv
      simp only [Cache.Find, List.mem_map, List.mem_filter] at hv
      obtain ⟨⟨k, w⟩, ⟨hmem, hp⟩, heq⟩ := hv
      cases heq
      exact ⟨k, mapGet_eq_some_of_mem c.data k w hnd hmem, hp⟩
    · rintro ⟨k, hget, hp⟩
      have hmem := mem_of_mapGet_eq_some c.data k v hget
      simp only [Cache.Find, List.mem_map, List.mem_filter]
      exact ⟨(k, v), ⟨hmem, hp⟩, rfl⟩
  · rintro ⟨k, w, hget, hp⟩
    have hmem := mem_of_mapGet_eq_some c.data k w hget
    have hsome : (c.data.find? (fun kv => p kv.2)).isSome :=
      List.find?_isSome.mpr ⟨(k, w), hmem, hp⟩
    obtain ⟨⟨k1, w1⟩, hfind⟩ := Option.isSome_iff_exists.mp hsome
    refine ⟨w1, ?_, ?_, k1, ?_⟩
    · simp [Cache.FindOne, hfind]
    · have hp1 := List.find?_some hfind
      exact hp1
    · exact mapGet_eq_some_of_mem c.data k1 w1 hnd
        (List.mem_of_find?_eq_some hfind)
  · intro hall
    have hnone : ∀ kv ∈ c.data, ¬ p kv.2 = true := by
      rintro ⟨k1, w1⟩ hmem hp
      have hget := mapGet_eq_some_of_mem c.data k1 w1 hnd hmem
      rw [hall k1 w1 hget] at hp
      exact Bool.false_ne_true hp
    constructor
    · have hfnone := List.find?_eq_none.mpr hnone
      simp [Cache.FindOne, hfnone]
    · have hfil := List.filter_eq_nil_iff.mpr hnone
      simp [Cache.Find, hfil]

/-- C6 witness: instantiation at the concrete cache `{a: 1, b: 2}` with the
predicate `v > 1` and the value `2`. -/
theorem find_findOne_spec_witness :
    NoDupKeys cacheWitErr.data ∧
    ((2 ∈ cacheWitErr.Find gtOne ↔
        ∃ k, cacheWitErr.Get k = some 2 ∧ gtOne 2 = true) ∧
      ((∃ k w, cacheWitErr.Get k = some w ∧ gtOne w = true) →
        ∃ w, cacheWitErr.FindOne gtOne = some w ∧ gtOne w = true ∧
          ∃ k, cacheWitErr.Get k = some w) ∧
      ((∀ k w, cacheWitErr.Get k = some w → gtOne w = false) →
        cacheWitErr.FindOne gtOne = none ∧ cacheWitErr.Find gtOne = [])) :=
  ⟨by decide, find_findOne_spec cacheWitErr gtOne 2 (by decide)⟩

/-!
Lifecycle invariants. `CacheInv` is the task invariant of spec invariant I3:
at most one live background goroutine, a live goroutine implies a non-nil
ticker, and a closed `quit` channel implies no live goroutine.
-/

/-- Task invariant of a cache state. -/
def CacheInv {T : Type} (c : Cache T) : Prop :=
  c.tasks ≤ 1 ∧ (c.tasks = 1 → c.tickerActive = true) ∧
    (c.quitClosed = true → c.tasks = 0)

theorem cacheInv_newCache {T : Type} (loader : Nat → LoadResult T)
    (interval : Int) : CacheInv (NewCache loader interval) := by
  refine ⟨by simp [NewCache], by simp [NewCache], by simp [NewCache]⟩

theorem stopAutoReload_ok_fields {T : Type} (c c' : Cache T)
    (h : c.StopAutoReload = Except.ok c') :
    c'.tasks = 0 ∧ c'.quitClosed = true ∧ c'.tickerActive = false ∧
      c'.data = c.data ∧ c'.calls = c.calls ∧
      c'.autoLoads = c.autoLoads ∧ c.quitClosed = false := by
  unfold Cache.StopAutoReload at h
  by_cases ht : c.tickerActive <;>
    by_cases hq : c.quitClosed <;>
      simp [ht, hq] at h <;>
        (subst h; simp [ht, hq])

theorem cacheInv_step {T : Type} (c c' : Cache T) (op : LifeOp T)
    (hinv : CacheInv c) (h : stepOp c op = Except.ok c') : CacheInv c' := by
  obtain ⟨h1, h2, h3⟩ := hinv
  cases op with
  | start =>
      simp only [stepOp, Except.ok.injEq] at h
      subst h
      unfold Cache.StartAutoReload
      by_cases ht : c.tickerActive
      · simp only [ht, if_pos]
        exact ⟨h1, h2, h3⟩
      · have htasks : c.tasks = 0 := by
          rcases Nat.lt_or_ge c.tasks 1 with hlt | hge
          · omega
          · have : c.tasks = 1 := by omega
            exact absurd (h2 this) (by simp [ht])
        by_cases hq : c.quitClosed = true <;>
          simp [ht, hq, htasks, CacheInv]
  | stop =>
      simp only [stepOp] at h
      obtain ⟨ht0, hq0, hta0, _⟩ := stopAutoReload_ok_fields c c' h
      exact ⟨by omega, by omega, fun _ => ht0⟩
  | tick =>
      simp only [stepOp, Except.ok.injEq] at h
      subst h
      unfold Cache.tick
      by_cases h0 : c.tasks = 0
      · simp only [h0, if_pos]
        exact ⟨h1, h2, h3⟩
      · simp only [h0, if_neg, if_false]
        unfold Cache.Load
        cases c.loader c.calls <;> exact ⟨h1, h2, h3⟩
  | load =>
      simp only [stepOp, Except.ok.injEq] at h
      subst h
      unfold Cache.Load
      cases c.loader c.calls <;> exact ⟨h1, h2, h3⟩
  | add k v =>
      simp only [stepOp, Except.ok.injEq] at h
      subst h
      exact ⟨h1, h2, h3⟩
  | del k =>
      simp only [stepOp, Except.ok.injEq] at h
      subst h
      exact ⟨h1, h2, h3⟩
  | clear =>
      simp only [stepOp, Except.ok.injEq] at h
      subst h
      exact ⟨h1, h2, h3⟩
  | setInterval d =>
      simp only [stepOp, Except.ok.injEq] at h
      subst h
      exact ⟨h1, h2, h3⟩

theorem cacheInv_runOps {T : Type} (ops : List (LifeOp T)) (c c' : Cache T)
    (hinv : CacheInv c) (h : runOps c ops = Except.ok c') : CacheInv c' := by
  induction ops generalizing c with
  | nil =>
      simp only [runOps, Except.ok.injEq] at h
      subst h
      exact hinv
  | cons op ops ih =>
      simp only [runOps] at h
      cases hs : stepOp c op with
      | error e => rw [hs] at h; cases h
      | ok c1 =>
          rw [hs] at h
          exact ih c1 (cacheInv_step c c1 op hinv hs) h

/-- C8: in every state reachable from construction, at most one background
reload task is live; `StartAutoReload` on a state whose ticker is active is a
no-op, it is idempotent in general, and two starts in a row from a fresh
cache leave exactly one live task. -/
theorem startAutoReload_idempotent_single_task {T : Type}
    (loader : Nat → LoadResult T) (interval : Int) (ops : List (LifeOp T))
    (c : Cache T) (h : runOps (NewCache loader interval) ops = Except.ok c) :
    c.tasks ≤ 1 ∧
    (c.tickerActive = true → c.StartAutoReload = c) ∧
    c.StartAutoReload.StartAutoReload = c.StartAutoReload ∧
    ((NewCache loader interval).StartAutoReload.StartAutoReload).tasks = 1 := by
  refine ⟨(cacheInv_runOps ops (NewCache loader interval) c
    (cacheInv_newCache loader interval) h).1, ?_, ?_, rfl⟩
  · intro hact
    simp [Cache.StartAutoReload, hact]
  · by_cases ht : c.tickerActive <;> simp [Cache.StartAutoReload, ht]

/-- C8 witness: instantiation at a fresh cache after one `StartAutoReload`. -/
theorem startAutoReload_idempotent_single_task_witness :
    runOps (NewCache errLoader 5) [LifeOp.start]
        = Except.ok (NewCache errLoader 5).StartAutoReload ∧
    ((NewCache errLoader 5).StartAutoReload.tasks ≤ 1 ∧
      ((NewCache errLoader 5).StartAutoReload.tickerActive = true →
        (NewCache errLoader 5).StartAutoReload.StartAutoReload
          = (NewCache errLoader 5).StartAutoReload) ∧
      (NewCache errLoader 5).StartAutoReload.StartAutoReload.StartAutoReload
        = (NewCache errLoader 5).StartAutoReload.StartAutoReload ∧
      ((NewCache errLoader 5).StartAutoReload.StartAutoReload).tasks = 1) :=
  ⟨rfl, startAutoReload_idempotent_single_task errLoader 5 [LifeOp.start]
    (NewCache errLoader 5).StartAutoReload rfl⟩

/-- Quiescence after a completed stop: the `quit` channel is closed and no
live background goroutine remains. -/
def Quiescent {T : Type} (c : Cache T) : Prop :=
  c.quitClosed = true ∧ c.tasks = 0

theorem quiescent_step {T : Type} (c c' : Cache T) (op : LifeOp T)
    (hq : Quiescent c) (h : stepOp c op = Except.ok c') :
    Quiescent c' ∧ c'.autoLoads = c.autoLoads := by
  obtain ⟨hqc, hqt⟩ := hq
  cases op with
  | start =>
      simp only [stepOp, Except.ok.injEq] at h
      subst h
      by_cases ht : c.tickerActive <;>
        simp [Cache.StartAutoReload, Quiescent, ht, hqc, hqt]
  | stop =>
      exfalso
      simp only [stepOp] at h
      unfold Cache.StopAutoReload at h
      by_cases ht : c.tickerActive <;> simp [ht, hqc] at h
  | tick =>
      simp only [stepOp, Except.ok.injEq] at h
      subst h
      simp [Cache.tick, Quiescent, hqt, hqc]
  | load =>
      simp only [stepOp, Except.ok.injEq] at h
      subst h
      unfold Cache.Load
      cases c.loader c.calls <;> exact ⟨⟨hqc, hqt⟩, rfl⟩
  | add k v =>
      simp only [stepOp, Except.ok.injEq] at h
      subst h
      exact ⟨⟨hqc, hqt⟩, rfl⟩
  | del k =>
      simp only [stepOp, Except.ok.injEq] at h
      subst h
      exact ⟨⟨hqc, hqt⟩, rfl⟩
  | clear =>
      simp only [stepOp, Except.ok.injEq] at h
      subst h
      exact ⟨⟨hqc, hqt⟩, rfl⟩
  | setInterval d =>
      simp only [stepOp, Except.ok.injEq] at h
      subst h
      exact ⟨⟨hqc, hqt⟩, rfl⟩

theorem quiescent_runOps {T : Type} (ops : List (LifeOp T)) (c c' : Cache T)
    (hq : Quiescent c) (h : runOps c ops = Except.ok c') :
    Quiescent c' ∧ c'.autoLoads = c.autoLoads := by
  induction ops generalizing c with
  | nil =>
      simp only [runOps, Except.ok.injEq] at h
      subst h
      exact ⟨hq, rfl⟩
  | cons op ops ih =>
      simp only [runOps] at h
      cases hs : stepOp c op with
      | error e => rw [hs] at h; cases h
      | ok c1 =>
          rw [hs] at h
          obtain ⟨hq1, ha1⟩ := quiescent_step c c1 op hq hs
          obtain ⟨hq2, ha2⟩ := ih c1 hq1 h
          exact ⟨hq2, ha2.trans ha1⟩

/-- C10: once `StopAutoReload` has completed, auto-reload can never be
restarted. The `quit` channel stays closed through any later sequence of
operations, no live background task ever exists again, and the count of
ticker-triggered loads is frozen; a later `StartAutoReload` still creates a
new ticker (`tickerActive` becomes true) but spawns no live task, because the
goroutine observes the already-closed `quit` channel and exits. -/
theorem stop_prevents_auto_reload {T : Type} (c c0 c' : Cache T)
    (ops : List (LifeOp T)) (hstop : c.StopAutoReload = Except.ok c0)
    (h : runOps c0 ops = Except.ok c') :
    c'.quitClosed = true ∧ c'.tasks = 0 ∧ c'.autoLoads = c.autoLoads ∧
    c'.StartAutoReload.tasks = 0 ∧
    c'.StartAutoReload.tickerActive = true := by
  obtain ⟨ht0, hq0, _, _, _, ha0, _⟩ := stopAutoReload_ok_fields c c0 hstop
  obtain ⟨⟨hqc, hqt⟩, ha⟩ := quiescent_runOps ops c0 c' ⟨hq0, ht0⟩ h
  refine ⟨hqc, hqt, ha.trans ha0, ?_, ?_⟩ <;>
    by_cases ht : c'.tickerActive <;>
      simp [Cache.StartAutoReload, ht, hqc, hqt]

/-- The concrete cache state reached by starting and then stopping a fresh
cache: ticker nil, `quit` closed, no live task. -/
def stoppedWit : Cache Nat :=
  { loader := errLoader
    interval := 5
    data := []
    tickerActive := false
    quitClosed := true
    calls := 0
    tasks := 0
    autoLoads := 0 }

/-- The concrete cache state reached from `stoppedWit` by a further
`StartAutoReload`, a ticker tick and a manual `Load`: the ticker exists again
but no task is live, no automatic load happened, and only the manual load
consumed a loader call. -/
def afterStopWit : Cache Nat :=
  { loader := errLoader
    interval := 5
    data := []
    tickerActive := true
    quitClosed := true
    calls := 1
    tasks := 0
    autoLoads := 0 }

/-- C10 witness: instantiation at a fresh cache that is started, stopped, and
then subjected to a restart attempt, a tick and a manual load. -/
theorem stop_prevents_auto_reload_witness :
    (NewCache errLoader 5).StartAutoReload.StopAutoReload
        = Except.ok stoppedWit ∧
    runOps stoppedWit [LifeOp.start, LifeOp.tick, LifeOp.load]
        = Except.ok afterStopWit ∧
    (afterStopWit.quitClosed = true ∧ afterStopWit.tasks = 0 ∧
      afterStopWit.autoLoads = (NewCache errLoader 5).StartAutoReload.autoLoads ∧
      afterStopWit.StartAutoReload.tasks = 0 ∧
      afterStopWit.StartAutoReload.tickerActive = true) :=
  ⟨rfl, rfl,
    stop_prevents_auto_reload (NewCache errLoader 5).StartAutoReload
      stoppedWit afterStopWit [LifeOp.start, LifeOp.tick, LifeOp.load]
      rfl rfl⟩

/-!
Interleaving model for C9. Every writer in `cache.go` holds the write lock
for its whole critical section and every reader holds the read lock, so an
execution in which a reload runs concurrently with point mutations and
readers is an interleaving of atomic actions on the `data` map: the point
mutations (the locked bodies of `Add`, `Delete`, `Clear`) and the single
atomic swap `c.data = result` performed by a successful `Load` (a failed
`Load` performs no action on the map at all). A reader (`Get` or `GetAll`
under the read lock) observes the map reached after some prefix of the
interleaving.
-/

/-- An atomic point mutation on the data map: the locked body of `Add`,
`Delete` or `Clear`. -/
inductive Mut (T : Type) where
  | add (k : String) (v : T)
  | del (k : String)
  | clear

/-- Apply one point mutation. -/
def applyMut {T : Type} (m : GoMap T) : Mut T → GoMap T
  | Mut.add k v => mapInsert m k v
  | Mut.del k => mapErase m k
  | Mut.clear => []

/-- Apply a sequence of point mutations. -/
def applyMuts {T : Type} (m : GoMap T) (ms : List (Mut T)) : GoMap T :=
  ms.foldl applyMut m

/-- An atomic writer action on the data map: a point mutation, or the whole
map swap of a successful reload. -/
inductive Act (T : Type) where
  | mut (a : Mut T)
  | swap (m : GoMap T)

/-- Apply one writer action. -/
def applyAct {T : Type} (m : GoMap T) : Act T → GoMap T
  | Act.mut a => applyMut m a
  | Act.swap m' => m'

/-- Apply a sequence of writer actions. -/
def applyActs {T : Type} (m : GoMap T) (acts : List (Act T)) : GoMap T :=
  acts.foldl applyAct m

theorem applyActs_append {T : Type} (m : GoMap T) (l1 l2 : List (Act T)) :
    applyActs m (l1 ++ l2) = applyActs (applyActs m l1) l2 :=
  List.foldl_append applyAct m l1 l2

theorem applyActs_map_mut {T : Type} (m : GoMap T) (ms : List (Mut T)) :
    applyActs m (ms.map Act.mut) = applyMuts m ms := by
  unfold applyActs applyMuts
  rw [List.foldl_map]
  rfl

/-- C9: in any interleaving of one reload swap with point mutations, the map
a reader observes after any prefix of the interleaving is either the
pre-reload snapshot modified by the point mutations so far, or the
post-reload snapshot modified by the point mutations that followed the swap —
never a mixture. Readers see exactly this map: `Get` probes it and `GetAll`
copies it, the swap being one atomic action under the write lock. -/
theorem reload_snapshot_atomicity {T : Type} (pre m : GoMap T)
    (ms1 ms2 : List (Mut T)) (n : Nat) :
    applyActs pre
        ((ms1.map Act.mut ++ Act.swap m :: ms2.map Act.mut).take n)
      = applyMuts pre (ms1.take n) ∨
    applyActs pre
        ((ms1.map Act.mut ++ Act.swap m :: ms2.map Act.mut).take n)
      = applyMuts m (ms2.take (n - (ms1.length + 1))) := by
  by_cases hn : n ≤ ms1.length
  · left
    have hlen : n ≤ (ms1.map Act.mut).length := by
      simpa using hn
    rw [List.take_append_of_le_length hlen, ← List.map_take]
    exact applyActs_map_mut pre (ms1.take n)
  · right
    have hn' : ms1.length < n := Nat.lt_of_not_le hn
    obtain ⟨j, hj⟩ := Nat.exists_eq_add_of_lt hn'
    subst hj
    have hsub : ms1.length + j + 1 - (ms1.length + 1) = j := by omega
    rw [hsub]
    have hlen : ms1.length + j + 1 = (ms1.map Act.mut).length + (j + 1) := by
      simp [List.length_map]
      omega
    rw [hlen, List.take_append (j + 1), List.take_succ_cons,
      applyActs_append, ← List.map_take]
    show applyActs m ((ms2.take j).map Act.mut) = applyMuts m (ms2.take j)
    exact applyActs_map_mut m (ms2.take j)
